import Mathlib

/-!
Verification of the to-do list app (`src/App.js`) of this repository against
its natural-language specification.

The program is a single React component.  Its state consists of
* `task`          : the text in the "add a new task" input field,
* `tasks`         : the task collection, a JS array of `{id, text, checked}`,
* `modalVisible`  : whether the edit modal is shown,
* `selectedTask`  : the edit draft (`null` when no edit is open).

The mutation handlers `addTask`, `deleteTask`, `saveTaskEdit` and `checkOff`
are pure functions of the task array (plus the input text and `Date.now()`
for `addTask`); we embed them as Lean functions on `List Task` below,
keeping the source names.  The clock `Date.now()` becomes an explicit `Nat`
argument; `Date.now().toString()` becomes `toString : Nat → String`
(i.e. `Nat.repr`, decimal notation, matching JS for naturals).

Persistence (`saveTasksToStorage` / `loadTasksFromStorage`) goes through
`JSON.stringify` / `JSON.parse` into AsyncStorage.  We embed the JSON layer
with an explicit JSON value type `Json` and model the stored cell with a
type `Stored` that distinguishes the observations the code makes on it:
absent (`getItem` returned null), the empty string (falsy, skipped by the
`if (storedTasks)` guard), a non-parseable string (`JSON.parse` throws —
caught by the `try/catch`), or a string parsing to a JSON value `j`
(`JSON.parse(JSON.stringify(v))` returns a structurally equal value for
the plain objects used here, so the string layer is collapsed to the value
layer).  The in-memory `tasks` variable is untyped in JS; `loadTasksFromStorage`
installs whatever `JSON.parse` returned with no shape check, so its embedding
returns a `Json` value, not a `List Task`.
-/

namespace TodoApp

/-- A task, as created by `addTask` in `src/App.js`:
`{ id: Date.now().toString(), text: task, checked: false }`. -/
structure Task where
  id : String
  text : String
  checked : Bool
deriving Repr, DecidableEq

/-- JS `String.prototype.trim`: remove whitespace from both ends of the
string, embedded as a structurally recursive function on the character
list (the whitespace test is `Char.isWhitespace`, which covers the ASCII
whitespace appearing in this development). -/
def jsTrim (s : String) : String :=
  (((s.data.dropWhile Char.isWhitespace).reverse.dropWhile Char.isWhitespace).reverse).asString

/-- `addTask` (src/App.js:15-21): if the trimmed input is non-empty (JS
truthiness of `task.trim()`), append a fresh task with `id = Date.now().toString()`,
the raw (untrimmed) input as `text`, and `checked = false`; otherwise do nothing.
The clock value `now` is the explicit stand-in for `Date.now()`. -/
def addTask (now : Nat) (text : String) (tasks : List Task) : List Task :=
  if jsTrim text = "" then tasks
  else tasks ++ [{ id := toString now, text := text, checked := false }]

/-- `deleteTask` (src/App.js:55-57): `tasks.filter((item) => item.id !== taskId)`. -/
def deleteTask (taskId : String) (tasks : List Task) : List Task :=
  tasks.filter (fun item => item.id ≠ taskId)

/-- `saveTaskEdit` (src/App.js:59-66), the part acting on the task array:
`prevTasks.map((task) => task.id === editedTask.id ? { ...task, text: editedTask.text } : task)`. -/
def saveTaskEdit (editedTask : Task) (tasks : List Task) : List Task :=
  tasks.map (fun task =>
    if task.id = editedTask.id then { task with text := editedTask.text } else task)

/-- `checkOff` (src/App.js:68-76):
`prevTasks.map((task) => task.id === taskId ? { ...task, checked: !task.checked } : task)`. -/
def checkOff (taskId : String) (tasks : List Task) : List Task :=
  tasks.map (fun task =>
    if task.id = taskId then { task with checked := !task.checked } else task)

/-- The repository operations a UI session can issue against the task array,
with the clock value of each create made explicit. `saveEdit` carries the
draft's id and text; `saveTaskEdit` reads only those two fields of its
argument, so the draft's `checked` field is irrelevant and set to `false`. -/
inductive Op where
  | create (now : Nat) (text : String)
  | toggle (taskId : String)
  | delete (taskId : String)
  | saveEdit (taskId : String) (newText : String)
deriving Repr, DecidableEq

/-- One operation applied to the task array. -/
def applyOp (tasks : List Task) : Op → List Task
  | .create now text => addTask now text tasks
  | .toggle taskId => checkOff taskId tasks
  | .delete taskId => deleteTask taskId tasks
  | .saveEdit taskId newText =>
      saveTaskEdit { id := taskId, text := newText, checked := false } tasks

/-- A sequence of operations applied in order. -/
def applyOps (ops : List Op) (tasks : List Task) : List Task :=
  match ops with
  | [] => tasks
  | op :: rest => applyOps rest (applyOp tasks op)

/-- The clock values of the creates of an operation sequence, in order. -/
def createClocks : List Op → List Nat
  | [] => []
  | .create now _ :: rest => now :: createClocks rest
  | .toggle _ :: rest => createClocks rest
  | .delete _ :: rest => createClocks rest
  | .saveEdit _ _ :: rest => createClocks rest

/-- The ids handed out by the creates that actually append (non-blank text),
in creation order. -/
def createdIds : List Op → List String
  | [] => []
  | .create now text :: rest =>
      if jsTrim text = "" then createdIds rest else toString now :: createdIds rest
  | .toggle _ :: rest => createdIds rest
  | .delete _ :: rest => createdIds rest
  | .saveEdit _ _ :: rest => createdIds rest

section ReprInjective

/-!
`Date.now().toString()` is `Nat.repr` in the embedding.  Distinct clock
values give distinct id strings; we prove `Nat.repr` injective by exhibiting
a left inverse that re-evaluates the decimal digit characters.
-/

/-- Numeric value of a decimal digit character. -/
def digitVal (c : Char) : Nat := c.toNat - 48

/-- Evaluate a most-significant-first decimal digit string, extending the
prefix value `a`. -/
def evalDigits (a : Nat) : List Char → Nat
  | [] => a
  | c :: cs => evalDigits (10 * a + digitVal c) cs

theorem evalDigits_append (a : Nat) (l₁ l₂ : List Char) :
    evalDigits a (l₁ ++ l₂) = evalDigits (evalDigits a l₁) l₂ := by
  induction l₁ generalizing a with
  | nil => rfl
  | cons c cs ih => exact ih (10 * a + digitVal c)

theorem digitVal_digitChar (d : Nat) (h : d < 10) :
    digitVal (Nat.digitChar d) = d := by
  interval_cases d <;> rfl

/-- `toDigitsCore` with enough fuel ignores the accumulator: it computes the
digits of `n` and prepends them. -/
theorem toDigitsCore_eq_append (fuel : Nat) :
    ∀ n acc, n < fuel →
      Nat.toDigitsCore 10 fuel n acc = Nat.toDigitsCore 10 (n + 1) n [] ++ acc := by
  induction fuel using Nat.strong_induction_on with
  | _ fuel ih =>
    intro n acc hn
    match fuel, hn with
    | fuel + 1, hn =>
      rw [Nat.toDigitsCore]
      conv_rhs => rw [Nat.toDigitsCore]
      by_cases h10 : n / 10 = 0
      · simp [h10]
      · have hlt : n / 10 < n := Nat.div_lt_self (Nat.pos_of_ne_zero (by omega)) (by omega)
        simp only [h10, if_neg]
        rw [ih fuel (Nat.lt_succ_self _) (n / 10) _ (by omega),
            ih n (by omega) (n / 10) _ hlt]
        simp

/-- Re-evaluating the digits of `n` recovers `n` (relative to any prefix
value `a`). -/
theorem evalDigits_toDigits (n : Nat) :
    ∀ a, evalDigits a (Nat.toDigits 10 n) = a * 10 ^ (Nat.toDigits 10 n).length + n := by
  induction n using Nat.strong_induction_on with
  | _ n ih =>
    intro a
    rw [Nat.toDigits, Nat.toDigitsCore]
    by_cases h10 : n / 10 = 0
    · have hn : n < 10 := by omega
      rw [if_pos h10, Nat.mod_eq_of_lt hn]
      show evalDigits (10 * a + digitVal (Nat.digitChar n)) [] = a * 10 ^ 1 + n
      rw [digitVal_digitChar n hn]
      show 10 * a + n = a * 10 ^ 1 + n
      ring
    · have hlt : n / 10 < n := Nat.div_lt_self (Nat.pos_of_ne_zero (by omega)) (by omega)
      rw [if_neg h10]
      rw [toDigitsCore_eq_append n (n / 10) _ hlt, ← Nat.toDigits]
      rw [evalDigits_append, ih (n / 10) hlt a]
      rw [show evalDigits (a * 10 ^ (Nat.toDigits 10 (n / 10)).length + n / 10)
            [Nat.digitChar (n % 10)] =
          10 * (a * 10 ^ (Nat.toDigits 10 (n / 10)).length + n / 10) +
            digitVal (Nat.digitChar (n % 10)) from rfl]
      rw [digitVal_digitChar (n % 10) (Nat.mod_lt _ (by omega))]
      rw [List.length_append, List.length_singleton, Nat.pow_succ]
      rw [Nat.mul_add, Nat.add_assoc, Nat.div_add_mod]
      ring

theorem toDigits_injective : Function.Injective (Nat.toDigits 10) := by
  intro m n h
  have hm := evalDigits_toDigits m 0
  have hn := evalDigits_toDigits n 0
  rw [h] at hm
  omega

/-- Distinct naturals print to distinct strings: `toString`/`Nat.repr` is
injective, hence distinct clock instants yield distinct task ids. -/
theorem natRepr_injective : Function.Injective Nat.repr := by
  intro m n h
  apply toDigits_injective
  have : (Nat.toDigits 10 m).asString.data = (Nat.toDigits 10 n).asString.data := by
    rw [show (Nat.toDigits 10 m).asString = Nat.repr m from rfl,
        show (Nat.toDigits 10 n).asString = Nat.repr n from rfl, h]
  simpa [List.asString] using this

end ReprInjective

/-! ### Persistence layer

`saveTasksToStorage` (src/App.js:28-34) writes `JSON.stringify(tasks)` under
the key `'tasks'`; `loadTasksFromStorage` (src/App.js:36-45) reads that key,
skips a falsy result (null or the empty string), and otherwise calls
`setTasks(JSON.parse(storedTasks))` inside a `try/catch` — whatever value
the parse yields is installed as the component's `tasks` state with no
shape check.  We embed JSON values as the inductive `Json` and the stored
cell as `Stored` (see the header comment). -/

/-- A JSON value, as produced and consumed by `JSON.stringify`/`JSON.parse`.
Numbers are restricted to integers (the app never stores numbers; the
constructor exists because a stored value may have any JSON shape). -/
inductive Json where
  | null
  | bool (b : Bool)
  | num (n : Int)
  | str (s : String)
  | arr (elems : List Json)
  | obj (fields : List (String × Json))
deriving Repr

/-- What the stored cell under the key `'tasks'` can look like to the code:
`absent` (`getItem` returned null), `emptyString` (falsy, skipped by the
`if (storedTasks)` guard), `malformed` (a non-empty string `JSON.parse`
rejects; the exception is caught), or `value j` (a non-empty string parsing
to the JSON value `j`; `JSON.parse ∘ JSON.stringify` is the identity on the
plain values used here, so the string layer is collapsed). -/
inductive Stored where
  | absent
  | emptyString
  | malformed
  | value (j : Json)
deriving Repr

/-- `JSON.stringify` of one task object, at the value level: field order as
written in `addTask`. -/
def encodeTask (t : Task) : Json :=
  .obj [("id", .str t.id), ("text", .str t.text), ("checked", .bool t.checked)]

/-- `JSON.stringify(tasks)` at the value level: an array of task objects. -/
def encodeTasks (tasks : List Task) : Json :=
  .arr (tasks.map encodeTask)

/-- `saveTasksToStorage` (src/App.js:28-34): overwrite the cell with the
serialized collection. -/
def saveTasksToStorage (tasks : List Task) : Stored :=
  .value (encodeTasks tasks)

/-- `loadTasksFromStorage` (src/App.js:36-45) as a function from the previous
in-memory `tasks` state and the stored cell to the new `tasks` state.  The
result is a `Json`, not a `List Task`, because the code installs the parsed
value verbatim: a falsy or non-parseable cell leaves the state unchanged
(the exception is caught — the function is total), and a parseable cell
replaces the state with the parsed value whatever its shape. -/
def loadTasksFromStorage (prev : Json) : Stored → Json
  | .absent => prev
  | .emptyString => prev
  | .malformed => prev
  | .value j => j

/-- The expected array-of-Task shape of a stored value, from §6 of the spec
(`value = serialized array of Task objects {id: string, text: string,
checked: bool}`): decode one task object. -/
def decodeTask : Json → Option Task
  | .obj [("id", .str id), ("text", .str text), ("checked", .bool checked)] =>
      some { id := id, text := text, checked := checked }
  | _ => none

/-- Decode a list of JSON values as tasks; `none` if any element fails. -/
def decodeTaskList : List Json → Option (List Task)
  | [] => some []
  | j :: rest =>
      match decodeTask j, decodeTaskList rest with
      | some t, some ts => some (t :: ts)
      | _, _ => none

/-- Decode a JSON value as a task collection; `none` on any shape mismatch. -/
def decodeTasks : Json → Option (List Task)
  | .arr elems => decodeTaskList elems
  | _ => none

/-! ### Component state and the edit modal

The edit dialog of `src/App.js` keeps the draft in the `selectedTask` slot;
the handlers below embed `openTaskModal` (lines 23-26), the modal text
field's `onChangeText` (lines 134-136), the Save button (lines 140-145,
invoking `saveTaskEdit`) and the Cancel button (lines 147-152).  The text
field and both buttons render only when `selectedTask` is non-null
(the `{selectedTask && ...}` guard), so their handlers fire only then. -/

/-- The component state of `App` (src/App.js:10-13). -/
structure AppState where
  task : String
  tasks : List Task
  modalVisible : Bool
  selectedTask : Option Task
deriving Repr, DecidableEq

/-- `openTaskModal` (src/App.js:23-26). -/
def openTaskModal (t : Task) (s : AppState) : AppState :=
  { s with selectedTask := some t, modalVisible := true }

/-- The modal text field's `onChangeText` (src/App.js:134-136):
`setSelectedTask((prev) => ({ ...prev, text }))`; fires only while the
modal shows a non-null draft. -/
def updateDraftText (text : String) (s : AppState) : AppState :=
  { s with selectedTask := s.selectedTask.map (fun prev => { prev with text := text }) }

/-- The Save button (src/App.js:140-145): `saveTaskEdit(selectedTask)`,
which maps the edit over the collection and closes the modal; rendered
only for a non-null draft. -/
def pressSave (s : AppState) : AppState :=
  match s.selectedTask with
  | some draft => { s with tasks := saveTaskEdit draft s.tasks, modalVisible := false }
  | none => s

/-- The Cancel button (src/App.js:147-152): `setModalVisible(false)`; the
draft slot is left behind but never read while the modal is closed. -/
def pressCancel (s : AppState) : AppState :=
  { s with modalVisible := false }

/-! ### Helper lemmas -/

/-- `checkOff` never changes any task's id. -/
theorem checkOff_map_id (tid : String) (ts : List Task) :
    (checkOff tid ts).map Task.id = ts.map Task.id := by
  simp only [checkOff, List.map_map]
  refine List.map_congr_left (fun t _ => ?_)
  by_cases h : t.id = tid <;> simp [Function.comp, h]

/-- `saveTaskEdit` never changes any task's id. -/
theorem saveTaskEdit_map_id (e : Task) (ts : List Task) :
    (saveTaskEdit e ts).map Task.id = ts.map Task.id := by
  simp only [saveTaskEdit, List.map_map]
  refine List.map_congr_left (fun t _ => ?_)
  by_cases h : t.id = e.id <;> simp [Function.comp, h]

/-- `checkOff` with an id no task carries is the identity. -/
theorem checkOff_eq_self (tid : String) (ts : List Task)
    (h : ∀ t ∈ ts, t.id ≠ tid) : checkOff tid ts = ts := by
  induction ts with
  | nil => rfl
  | cons t rest ih =>
    have ht : t.id ≠ tid := h t (by simp)
    simp only [checkOff, List.map_cons, if_neg ht]
    have : checkOff tid rest = rest := ih (fun u hu => h u (by simp [hu]))
    simpa [checkOff] using this

/-- `saveTaskEdit` with an id no task carries is the identity. -/
theorem saveTaskEdit_eq_self (e : Task) (ts : List Task)
    (h : ∀ t ∈ ts, t.id ≠ e.id) : saveTaskEdit e ts = ts := by
  induction ts with
  | nil => rfl
  | cons t rest ih =>
    have ht : t.id ≠ e.id := h t (by simp)
    simp only [saveTaskEdit, List.map_cons, if_neg ht]
    have : saveTaskEdit e rest = rest := ih (fun u hu => h u (by simp [hu]))
    simpa [saveTaskEdit] using this

/-- When ids are unique and position `i` carries the edited id,
`saveTaskEdit` rewrites exactly position `i`'s text and nothing else. -/
theorem saveTaskEdit_eq_set (e : Task) :
    ∀ (ts : List Task), (ts.map Task.id).Nodup →
      ∀ i : Fin ts.length, (ts.get i).id = e.id →
        saveTaskEdit e ts = ts.set i { ts.get i with text := e.text }
  | [], _, i, _ => absurd i.isLt (by simp)
  | t :: rest, hnodup, ⟨0, _⟩, hi => by
    have hi' : t.id = e.id := hi
    have h2 : t.id ∉ rest.map Task.id ∧ (rest.map Task.id).Nodup := by
      simpa [List.nodup_cons] using hnodup
    have hrest : ∀ u ∈ rest, u.id ≠ e.id := by
      intro u hu he
      exact h2.1 (by rw [hi', ← he]; exact List.mem_map_of_mem Task.id hu)
    have htail : saveTaskEdit e rest = rest := saveTaskEdit_eq_self e rest hrest
    show (if t.id = e.id then { t with text := e.text } else t) :: saveTaskEdit e rest
        = { t with text := e.text } :: rest
    rw [if_pos hi', htail]
  | t :: rest, hnodup, ⟨i + 1, hlt⟩, hi => by
    have h2 : t.id ∉ rest.map Task.id ∧ (rest.map Task.id).Nodup := by
      simpa [List.nodup_cons] using hnodup
    have hlt' : i < rest.length := Nat.lt_of_succ_lt_succ (by simpa using hlt)
    have hmem : e.id ∈ rest.map Task.id := by
      rw [← hi]
      exact List.mem_map_of_mem Task.id (List.get_mem rest i hlt')
    have ht : t.id ≠ e.id := fun he => h2.1 (by rw [he]; exact hmem)
    have ih := saveTaskEdit_eq_set e rest h2.2 ⟨i, hlt'⟩ hi
    show (if t.id = e.id then { t with text := e.text } else t) :: saveTaskEdit e rest
        = t :: rest.set i { rest.get ⟨i, hlt'⟩ with text := e.text }
    rw [if_neg ht, ih]

/-- Each surviving task of a delete was already present. -/
theorem deleteTask_sublist (tid : String) (ts : List Task) :
    (deleteTask tid ts).Sublist ts :=
  List.filter_sublist ts

/-- Invariant carried through an operation sequence: when the create clocks
are strictly increasing, and every current id is the decimal string of a
clock below every future create clock, id uniqueness is preserved. -/
theorem applyOps_ids_nodup :
    ∀ (ops : List Op) (tasks : List Task),
      (createClocks ops).Pairwise (· < ·) →
      (∀ t ∈ tasks, ∃ c, t.id = toString c ∧ ∀ c' ∈ createClocks ops, c < c') →
      (tasks.map Task.id).Nodup →
      ((applyOps ops tasks).map Task.id).Nodup
  | [], _, _, _, hnodup => hnodup
  | .create now text :: rest, tasks, hops, hinv, hnodup => by
    have hops' : (createClocks rest).Pairwise (· < ·) :=
      (List.pairwise_cons.mp (by simpa [createClocks] using hops)).2
    have hfut : ∀ c' ∈ createClocks rest, now < c' :=
      (List.pairwise_cons.mp (by simpa [createClocks] using hops)).1
    show ((applyOps rest (addTask now text tasks)).map Task.id).Nodup
    by_cases htrim : jsTrim text = ""
    · rw [show addTask now text tasks = tasks from if_pos htrim]
      exact applyOps_ids_nodup rest tasks hops'
        (fun t ht => by
          obtain ⟨c, hc, hlt⟩ := hinv t ht
          exact ⟨c, hc, fun c' hc' => hlt c' (by simp [createClocks, hc'])⟩)
        hnodup
    · rw [show addTask now text tasks
          = tasks ++ [{ id := toString now, text := text, checked := false }]
        from if_neg htrim]
      refine applyOps_ids_nodup rest _ hops' ?_ ?_
      · intro t ht
        rcases List.mem_append.mp ht with h | h
        · obtain ⟨c, hc, hlt⟩ := hinv t h
          exact ⟨c, hc, fun c' hc' => hlt c' (by simp [createClocks, hc'])⟩
        · have : t = { id := toString now, text := text, checked := false } := by
            simpa using h
          exact ⟨now, by simp [this], hfut⟩
      · rw [List.map_append, List.map_singleton]
        refine List.Nodup.append hnodup (List.nodup_singleton _) ?_
        intro x hx hx'
        obtain ⟨t, ht, rfl⟩ := List.mem_map.mp hx
        obtain ⟨c, hc, hlt⟩ := hinv t ht
        have hcnow : c < now := hlt now (by simp [createClocks])
        have : toString c = toString now := by
          rw [← hc]; simpa using hx'
        exact absurd (natRepr_injective this) (by omega)
  | .toggle tid :: rest, tasks, hops, hinv, hnodup => by
    show ((applyOps rest (checkOff tid tasks)).map Task.id).Nodup
    refine applyOps_ids_nodup rest _ (by simpa [createClocks] using hops) ?_ ?_
    · intro t ht
      simp only [checkOff, List.mem_map] at ht
      obtain ⟨u, hu, rfl⟩ := ht
      obtain ⟨c, hc, hlt⟩ := hinv u hu
      refine ⟨c, ?_, fun c' hc' => hlt c' (by simp [createClocks, hc'])⟩
      show (if u.id = tid then { u with checked := !u.checked } else u).id = toString c
      by_cases h : u.id = tid
      · rw [if_pos h]; exact hc
      · rw [if_neg h]; exact hc
    · rw [checkOff_map_id]; exact hnodup
  | .delete tid :: rest, tasks, hops, hinv, hnodup => by
    show ((applyOps rest (deleteTask tid tasks)).map Task.id).Nodup
    refine applyOps_ids_nodup rest _ (by simpa [createClocks] using hops) ?_ ?_
    · intro t ht
      obtain ⟨c, hc, hlt⟩ := hinv t (List.mem_of_mem_filter ht)
      exact ⟨c, hc, fun c' hc' => hlt c' (by simp [createClocks, hc'])⟩
    · exact List.Nodup.sublist (List.Sublist.map Task.id (deleteTask_sublist tid tasks)) hnodup
  | .saveEdit tid newText :: rest, tasks, hops, hinv, hnodup => by
    show ((applyOps rest
      (saveTaskEdit { id := tid, text := newText, checked := false } tasks)).map Task.id).Nodup
    refine applyOps_ids_nodup rest _ (by simpa [createClocks] using hops) ?_ ?_
    · intro t ht
      simp only [saveTaskEdit, List.mem_map] at ht
      obtain ⟨u, hu, rfl⟩ := ht
      obtain ⟨c, hc, hlt⟩ := hinv u hu
      refine ⟨c, ?_, fun c' hc' => hlt c' (by simp [createClocks, hc'])⟩
      show (if u.id = tid then { u with text := newText } else u).id = toString c
      by_cases h : u.id = tid
      · rw [if_pos h]; exact hc
      · rw [if_neg h]; exact hc
    · rw [saveTaskEdit_map_id]; exact hnodup

/-- The ids of the state after an operation sequence form a subsequence of
the previous ids followed by the freshly created ids, in order. -/
theorem applyOps_ids_sublist :
    ∀ (ops : List Op) (tasks : List Task),
      ((applyOps ops tasks).map Task.id).Sublist (tasks.map Task.id ++ createdIds ops)
  | [], tasks => List.sublist_append_left _ _
  | .create now text :: rest, tasks => by
    show ((applyOps rest (addTask now text tasks)).map Task.id).Sublist _
    by_cases htrim : jsTrim text = ""
    · rw [show addTask now text tasks = tasks from if_pos htrim]
      simpa [createdIds, htrim] using applyOps_ids_sublist rest tasks
    · rw [show addTask now text tasks
          = tasks ++ [{ id := toString now, text := text, checked := false }]
        from if_neg htrim]
      have h := applyOps_ids_sublist rest
        (tasks ++ [{ id := toString now, text := text, checked := false }])
      simpa [createdIds, htrim, List.append_assoc] using h
  | .toggle tid :: rest, tasks => by
    show ((applyOps rest (checkOff tid tasks)).map Task.id).Sublist _
    have h := applyOps_ids_sublist rest (checkOff tid tasks)
    rw [checkOff_map_id] at h
    simpa [createdIds] using h
  | .delete tid :: rest, tasks => by
    show ((applyOps rest (deleteTask tid tasks)).map Task.id).Sublist _
    have h := applyOps_ids_sublist rest (deleteTask tid tasks)
    refine List.Sublist.trans h ?_
    simpa [createdIds] using
      List.Sublist.append
        (List.Sublist.map Task.id (deleteTask_sublist tid tasks))
        (List.Sublist.refl (createdIds rest))
  | .saveEdit tid newText :: rest, tasks => by
    show ((applyOps rest
      (saveTaskEdit { id := tid, text := newText, checked := false } tasks)).map Task.id).Sublist _
    have h := applyOps_ids_sublist rest
      (saveTaskEdit { id := tid, text := newText, checked := false } tasks)
    rw [saveTaskEdit_map_id] at h
    simpa [createdIds] using h

/-- Decoding inverts encoding on one task. -/
theorem decodeTask_encodeTask (t : Task) : decodeTask (encodeTask t) = some t := rfl

/-- Decoding inverts encoding on a task collection. -/
theorem decodeTasks_encodeTasks (ts : List Task) :
    decodeTasks (encodeTasks ts) = some ts := by
  show decodeTaskList (ts.map encodeTask) = some ts
  induction ts with
  | nil => rfl
  | cons t rest ih =>
    show decodeTaskList (encodeTask t :: rest.map encodeTask) = some (t :: rest)
    rw [decodeTaskList, decodeTask_encodeTask, ih]

/-! ### Claim theorems -/

/-- C1, counterexample: the claim that every Create generates an id distinct
from every id already present, including two Creates issued at the same
clock instant, is false — two Creates at clock instant 5 both hand out the
id `"5"`, so the resulting collection has two tasks sharing an id. -/
theorem c1_counterexample :
    applyOps [Op.create 5 "a", Op.create 5 "b"] [] =
      [{ id := "5", text := "a", checked := false },
       { id := "5", text := "b", checked := false }] ∧
    ¬ ((applyOps [Op.create 5 "a", Op.create 5 "b"] []).map Task.id).Nodup := by
  exact ⟨by decide, by decide⟩

/-- C1, amended: for every sequence of Create/Toggle/Delete/SaveEdit
operations starting from the empty collection in which the clock instants
of successive Creates are strictly increasing (Date.now read at strictly
later instants), no two tasks in the resulting collection share an id. -/
theorem c1_id_uniqueness (ops : List Op)
    (h : (createClocks ops).Pairwise (· < ·)) :
    ((applyOps ops []).map Task.id).Nodup :=
  applyOps_ids_nodup ops [] h (fun t ht => absurd ht (List.not_mem_nil t)) List.nodup_nil

/-- C1, witness: a concrete strictly-clocked run of all four operations. -/
theorem c1_id_uniqueness_witness :
    (createClocks [Op.create 1 "a", Op.create 2 "b", Op.toggle "1", Op.delete "2",
        Op.saveEdit "1" "x"]).Pairwise (· < ·) ∧
    ((applyOps [Op.create 1 "a", Op.create 2 "b", Op.toggle "1", Op.delete "2",
        Op.saveEdit "1" "x"] []).map Task.id).Nodup :=
  ⟨by decide, c1_id_uniqueness _ (by decide)⟩

/-- C3, counterexample: the claim that Create appends a task with an id not
already in the collection is false — a Create at clock instant 5 against a
collection already holding a task with id `"5"` appends a duplicate id. -/
theorem c3_counterexample :
    addTask 5 "b" [{ id := "5", text := "old", checked := false }] =
      [{ id := "5", text := "old", checked := false },
       { id := "5", text := "b", checked := false }] ∧
    "5" ∈ ([{ id := "5", text := "old", checked := false }] : List Task).map Task.id := by
  exact ⟨by decide, by decide⟩

/-- C3, amended: Create with blank (trimmed-empty) text leaves the
collection unchanged; Create with non-blank text appends exactly one task
at the end carrying the raw text, `checked = false` and the decimal string
of the clock instant as id, leaving all existing tasks unchanged; the new
id is absent from the collection whenever every existing id is the decimal
string of a clock instant different from the current one. -/
theorem c3_create_semantics (ts : List Task) (now : Nat) (text : String) :
    (jsTrim text = "" → addTask now text ts = ts) ∧
    (jsTrim text ≠ "" →
      addTask now text ts = ts ++ [{ id := toString now, text := text, checked := false }]) ∧
    ((∀ t ∈ ts, ∃ c, t.id = toString c ∧ c ≠ now) → toString now ∉ ts.map Task.id) := by
  refine ⟨fun h => if_pos h, fun h => if_neg h, fun hfresh hmem => ?_⟩
  obtain ⟨t, ht, hid⟩ := List.mem_map.mp hmem
  obtain ⟨c, hc, hne⟩ := hfresh t ht
  rw [hc] at hid
  exact hne (natRepr_injective hid)

/-- C3, witness: blank input is a no-op; `"buy milk"` is appended with a
fresh id against a collection whose sole id is `"1"`. -/
theorem c3_create_semantics_witness :
    addTask 3 "" [{ id := "1", text := "a", checked := true }] =
      [{ id := "1", text := "a", checked := true }] ∧
    addTask 3 "buy milk" [{ id := "1", text := "a", checked := true }] =
      [{ id := "1", text := "a", checked := true }] ++
        [{ id := toString 3, text := "buy milk", checked := false }] ∧
    toString 3 ∉ ([{ id := "1", text := "a", checked := true }] : List Task).map Task.id := by
  refine ⟨(c3_create_semantics _ 3 "").1 (by decide),
    (c3_create_semantics _ 3 "buy milk").2.1 (by decide),
    (c3_create_semantics _ 3 "buy milk").2.2 ?_⟩
  intro t ht
  have h1 : t = { id := "1", text := "a", checked := true } := by simpa using ht
  exact ⟨1, by rw [h1]; decide, by decide⟩

/-- C10: Create stores the text untrimmed — when the trimmed form of the
input is non-empty, the appended task carries exactly the raw input,
leading and trailing whitespace included; trimming is only the emptiness
test. -/
theorem c10_create_untrimmed (ts : List Task) (now : Nat) (text : String)
    (h : jsTrim text ≠ "") :
    addTask now text ts = ts ++ [{ id := toString now, text := text, checked := false }] :=
  if_neg h

/-- C10, witness: `"  buy milk  "` is stored with its surrounding spaces. -/
theorem c10_create_untrimmed_witness :
    jsTrim "  buy milk  " ≠ "" ∧
    addTask 7 "  buy milk  " [] =
      [] ++ [{ id := toString 7, text := "  buy milk  ", checked := false }] :=
  ⟨by decide, c10_create_untrimmed [] 7 "  buy milk  " (by decide)⟩

/-- C2, counterexample: the claim that a stored value not of the expected
array-of-Task shape yields an empty collection is false — a cell holding
the parseable JSON number 5 is installed verbatim by Load, and the
resulting state is neither the empty collection nor any task collection. -/
theorem c2_counterexample :
    loadTasksFromStorage (encodeTasks []) (Stored.value (Json.num 5)) = Json.num 5 ∧
    decodeTasks (Json.num 5) = none ∧
    Json.num 5 ≠ encodeTasks [] := by
  refine ⟨rfl, rfl, fun h => ?_⟩
  exact Json.noConfusion h

/-- C2, amended: an absent, empty-string, or non-parseable stored value
leaves the in-memory collection exactly as it was (the empty collection at
startup) and raises nothing — Load is total; but a stored value that parses
is installed verbatim, whatever its shape. -/
theorem c2_load_resilience (prev : Json) (stored : Stored) :
    (stored = .absent ∨ stored = .emptyString ∨ stored = .malformed →
      loadTasksFromStorage prev stored = prev) ∧
    (∀ j, stored = .value j → loadTasksFromStorage prev stored = j) := by
  constructor
  · rintro (rfl | rfl | rfl) <;> rfl
  · rintro j rfl
    rfl

/-- C2, witness: a corrupt cell leaves the startup state empty; a parseable
cell is installed as parsed. -/
theorem c2_load_resilience_witness :
    loadTasksFromStorage (encodeTasks []) Stored.malformed = encodeTasks [] ∧
    loadTasksFromStorage (encodeTasks []) (Stored.value (Json.arr [])) = Json.arr [] :=
  ⟨(c2_load_resilience (encodeTasks []) Stored.malformed).1 (Or.inr (Or.inr rfl)),
   (c2_load_resilience (encodeTasks []) (Stored.value (Json.arr []))).2 (Json.arr []) rfl⟩

/-- C4: persistence round-trip — saving a collection and loading on a fresh
instance (startup state empty) yields exactly the saved collection: the
loaded value is the encoding of the original, and decoding it returns the
original tasks in the same order with identical id, text and checked
fields. -/
theorem c4_persistence_roundtrip (ts : List Task) :
    loadTasksFromStorage (encodeTasks []) (saveTasksToStorage ts) = encodeTasks ts ∧
    decodeTasks (loadTasksFromStorage (encodeTasks []) (saveTasksToStorage ts)) = some ts :=
  ⟨rfl, decodeTasks_encodeTasks ts⟩

/-- C5: SaveEdit frame — with an id absent from the collection SaveEdit is
the identity; with unique ids and the task at position `i` carrying the
edited id, SaveEdit replaces exactly that position's text with the new text
verbatim (empty string included — the quantified `newText` is arbitrary),
keeping its id and checked flag and every other task unchanged. -/
theorem c5_saveEdit_frame (ts : List Task) (tid newText : String) :
    ((∀ t ∈ ts, t.id ≠ tid) →
      saveTaskEdit { id := tid, text := newText, checked := false } ts = ts) ∧
    ((ts.map Task.id).Nodup →
      ∀ i : Fin ts.length, (ts.get i).id = tid →
        saveTaskEdit { id := tid, text := newText, checked := false } ts =
          ts.set i { ts.get i with text := newText }) :=
  ⟨fun h => saveTaskEdit_eq_self _ ts h,
   fun hnodup i hi => saveTaskEdit_eq_set _ ts hnodup i hi⟩

/-- C5, witness: editing id `"2"` to the empty string rewrites only the
second task's text; an unknown id is a no-op. -/
theorem c5_saveEdit_frame_witness :
    saveTaskEdit { id := "9", text := "x", checked := false }
        [{ id := "1", text := "a", checked := true },
         { id := "2", text := "b", checked := false }] =
      [{ id := "1", text := "a", checked := true },
       { id := "2", text := "b", checked := false }] ∧
    saveTaskEdit { id := "2", text := "", checked := false }
        [{ id := "1", text := "a", checked := true },
         { id := "2", text := "b", checked := false }] =
      [{ id := "1", text := "a", checked := true },
       { id := "2", text := "", checked := false }] :=
  ⟨(c5_saveEdit_frame _ "9" "x").1 (by decide),
   (c5_saveEdit_frame _ "2" "").2 (by decide) ⟨1, by decide⟩ (by decide)⟩

/-- C6: Toggle pairing and no-op — toggling the same id twice restores
every checked flag (an involution on the collection), and toggling an id no
task carries leaves the collection unchanged. -/
theorem c6_toggle_involution (ts : List Task) (tid : String) :
    checkOff tid (checkOff tid ts) = ts ∧
    ((∀ t ∈ ts, t.id ≠ tid) → checkOff tid ts = ts) := by
  constructor
  · rw [checkOff, checkOff, List.map_map]
    conv_rhs => rw [← List.map_id ts]
    refine List.map_congr_left (fun t _ => ?_)
    obtain ⟨tId, tText, tChecked⟩ := t
    by_cases h : tId = tid
    · simp [Function.comp, h, Bool.not_not]
    · simp [Function.comp, h]
  · exact fun h => checkOff_eq_self tid ts h

/-- C6, witness: double toggle on the present id `"1"` restores the
collection; toggle on the absent id `"9"` is a no-op. -/
theorem c6_toggle_involution_witness :
    checkOff "1" (checkOff "1" [{ id := "1", text := "a", checked := false }]) =
      [{ id := "1", text := "a", checked := false }] ∧
    checkOff "9" [{ id := "1", text := "a", checked := false }] =
      [{ id := "1", text := "a", checked := false }] :=
  ⟨(c6_toggle_involution _ "1").1, (c6_toggle_involution _ "9").2 (by decide)⟩

/-- C7: edit round-trip — updating the draft text never touches the task
collection; opening the edit modal on the task at position `i`, typing a
new text and pressing Save leaves the collection with exactly that
position's text replaced (id and checked flag unchanged, all other tasks
untouched); pressing Cancel instead leaves the collection exactly as it
was. -/
theorem c7_edit_roundtrip (s : AppState) (newText : String)
    (hnodup : (s.tasks.map Task.id).Nodup) (i : Fin s.tasks.length) :
    (∀ text (s' : AppState), (updateDraftText text s').tasks = s'.tasks) ∧
    (pressSave (updateDraftText newText (openTaskModal (s.tasks.get i) s))).tasks =
      s.tasks.set i { s.tasks.get i with text := newText } ∧
    (pressCancel (updateDraftText newText (openTaskModal (s.tasks.get i) s))).tasks =
      s.tasks := by
  refine ⟨fun text s' => rfl, ?_, rfl⟩
  show saveTaskEdit { s.tasks.get i with text := newText } s.tasks =
      s.tasks.set i { s.tasks.get i with text := newText }
  exact saveTaskEdit_eq_set _ s.tasks hnodup i rfl

/-- C7, witness: on a one-task state, open-edit, type `"new"`, Save yields
the task with text `"new"` and checked flag intact; Cancel leaves the
collection untouched. -/
theorem c7_edit_roundtrip_witness :
    (pressSave (updateDraftText "new" (openTaskModal
        { id := "1", text := "a", checked := true }
        ⟨"", [{ id := "1", text := "a", checked := true }], false, none⟩))).tasks =
      [{ id := "1", text := "new", checked := true }] ∧
    (pressCancel (updateDraftText "new" (openTaskModal
        { id := "1", text := "a", checked := true }
        ⟨"", [{ id := "1", text := "a", checked := true }], false, none⟩))).tasks =
      [{ id := "1", text := "a", checked := true }] := by
  have h := c7_edit_roundtrip
    ⟨"", [{ id := "1", text := "a", checked := true }], false, none⟩
    "new" (by decide) ⟨0, by decide⟩
  exact ⟨h.2.1, h.2.2⟩

/-- C8: ordering invariant — Toggle and SaveEdit preserve the id sequence
(no reordering), Create either does nothing or appends at the end, Delete
keeps the survivors in their relative order (the result is a sublist), and
over any operation sequence from the empty collection the displayed ids
form a subsequence of the created ids in creation order. -/
theorem c8_ordering (ops : List Op) (ts : List Task) (now : Nat)
    (text : String) (tid : String) (e : Task) :
    ((checkOff tid ts).map Task.id = ts.map Task.id) ∧
    ((saveTaskEdit e ts).map Task.id = ts.map Task.id) ∧
    (addTask now text ts = if jsTrim text = "" then ts
      else ts ++ [{ id := toString now, text := text, checked := false }]) ∧
    ((deleteTask tid ts).Sublist ts) ∧
    (((applyOps ops []).map Task.id).Sublist (createdIds ops)) := by
  refine ⟨checkOff_map_id tid ts, saveTaskEdit_map_id e ts, rfl,
    deleteTask_sublist tid ts, ?_⟩
  simpa using applyOps_ids_sublist ops []

/-- C9: Delete semantics — after a delete no surviving task carries the
deleted id, deleting the same id twice equals deleting it once (the second
is a no-op), and deleting an id no task carries leaves the collection
unchanged. -/
theorem c9_delete (ts : List Task) (tid : String) :
    (∀ t ∈ deleteTask tid ts, t.id ≠ tid) ∧
    (deleteTask tid (deleteTask tid ts) = deleteTask tid ts) ∧
    ((∀ t ∈ ts, t.id ≠ tid) → deleteTask tid ts = ts) := by
  refine ⟨?_, ?_, ?_⟩
  · intro t ht
    simp only [deleteTask] at ht
    simpa using (List.mem_filter.mp ht).2
  · simp only [deleteTask, List.filter_filter]
    simp
  · intro h
    rw [deleteTask]
    refine List.filter_eq_self.mpr (fun a ha => ?_)
    exact decide_eq_true (h a ha)

/-- C9, witness: deleting the present id `"1"` leaves no task with that id
and a second delete is a no-op; deleting the absent id `"9"` changes
nothing. -/
theorem c9_delete_witness :
    (∀ t ∈ deleteTask "1" [{ id := "1", text := "a", checked := false }], t.id ≠ "1") ∧
    deleteTask "9" [{ id := "1", text := "a", checked := false }] =
      [{ id := "1", text := "a", checked := false }] :=
  ⟨(c9_delete _ "1").1, (c9_delete _ "9").2.2 (by decide)⟩

end TodoApp
